import Mathlib

/-
  Verification of the KHARMA flux/constrained-transport core against its
  natural-language specification.

  Shallow embedding of:
  - B_FluxCT::FluxCT / FluxCT2D / FixPolarFlux / TransportB / UtoP / MaxDivB
    (src/kharma/b_flux_ct/b_flux_ct.cpp and the mesh-wide variants in
     src/kharma/prob/bondi.cpp)
  - Flux::FOFC (src/kharma/containers.hpp, fofc.cpp part)
  - VarMap (src/unnamed/part_001, types.hpp)

  Real-valued grid data is modelled with exact rationals; grid indices are
  integers; per-cell parallel kernels become simultaneous functional updates,
  which is faithful because each kernel iteration writes storage no other
  iteration of the same kernel reads (the code relies on exactly this to be
  race-free), and sequential kernel launches become function composition.
-/

namespace Kharma

/-! Per-block grid configuration, as read from pmb->cellbounds and
    pmb->pmy_mesh->ndim, plus the two x2 boundary flags tested by
    FixPolarFlux (boundary_flag == BoundaryFlag::user). -/

structure Grid where
  ndim : ℕ
  gis : ℤ
  gie : ℤ
  gjs : ℤ
  gje : ℤ
  gks : ℤ
  gke : ℤ
  innerX2user : Bool
  outerX2user : Bool

/-! Fluxes of cons.B: F1/F2/F3 are rc->Get("cons.B").flux[X1DIR..X3DIR],
    indexed (component, k, j, i) with components B1=0, B2=1, B3=2. -/

structure BState where
  F1 : ℕ → ℤ → ℤ → ℤ → ℚ
  F2 : ℕ → ℤ → ℤ → ℤ → ℚ
  F3 : ℕ → ℤ → ℤ → ℤ → ℚ

/-- Corner EMF emf3 of the 3D FluxCT kernel flux_ct_emf, computed on
    [ks,ke+1]x[js,je+1]x[is,ie+1] from the incoming fluxes (0 outside the
    kernel range, standing for the untouched zero-initialized scratch). -/
def emf3v (g : Grid) (s : BState) (k j i : ℤ) : ℚ :=
  if g.gks ≤ k ∧ k ≤ g.gke + 1 ∧ g.gjs ≤ j ∧ j ≤ g.gje + 1 ∧ g.gis ≤ i ∧ i ≤ g.gie + 1 then
    (1/4) * (s.F1 1 k j i + s.F1 1 k (j-1) i - s.F2 0 k j i - s.F2 0 k j (i-1))
  else 0

/-- Corner EMF emf2 of the 3D FluxCT kernel flux_ct_emf. -/
def emf2v (g : Grid) (s : BState) (k j i : ℤ) : ℚ :=
  if g.gks ≤ k ∧ k ≤ g.gke + 1 ∧ g.gjs ≤ j ∧ j ≤ g.gje + 1 ∧ g.gis ≤ i ∧ i ≤ g.gie + 1 then
    -((1/4) * (s.F1 2 k j i + s.F1 2 (k-1) j i - s.F3 0 k j i - s.F3 0 k j (i-1)))
  else 0

/-- Corner EMF emf1 of the 3D FluxCT kernel flux_ct_emf. -/
def emf1v (g : Grid) (s : BState) (k j i : ℤ) : ℚ :=
  if g.gks ≤ k ∧ k ≤ g.gke + 1 ∧ g.gjs ≤ j ∧ j ≤ g.gje + 1 ∧ g.gis ≤ i ∧ i ≤ g.gie + 1 then
    (1/4) * (s.F2 2 k j i + s.F2 2 (k-1) j i - s.F3 1 k j i - s.F3 1 k (j-1) i)
  else 0

/-- The 3D flux rewrite of B_FluxCT::FluxCT (kernels flux_ct_1, flux_ct_2,
    flux_ct_3 of the non-fused path): each flux of cons.B is overwritten on
    its kernel range from the EMFs of the pre-call state. -/
def fluxCT3D (g : Grid) (s : BState) : BState where
  F1 := fun p k j i =>
    if g.gks ≤ k ∧ k ≤ g.gke ∧ g.gjs ≤ j ∧ j ≤ g.gje ∧ g.gis ≤ i ∧ i ≤ g.gie + 1 then
      if p = 0 then 0
      else if p = 1 then (1/2) * (emf3v g s k j i + emf3v g s k (j+1) i)
      else if p = 2 then -((1/2) * (emf2v g s k j i + emf2v g s (k+1) j i))
      else s.F1 p k j i
    else s.F1 p k j i
  F2 := fun p k j i =>
    if g.gks ≤ k ∧ k ≤ g.gke ∧ g.gjs ≤ j ∧ j ≤ g.gje + 1 ∧ g.gis ≤ i ∧ i ≤ g.gie then
      if p = 0 then -((1/2) * (emf3v g s k j i + emf3v g s k j (i+1)))
      else if p = 1 then 0
      else if p = 2 then (1/2) * (emf1v g s k j i + emf1v g s (k+1) j i)
      else s.F2 p k j i
    else s.F2 p k j i
  F3 := fun p k j i =>
    if g.gks ≤ k ∧ k ≤ g.gke + 1 ∧ g.gjs ≤ j ∧ j ≤ g.gje ∧ g.gis ≤ i ∧ i ≤ g.gie then
      if p = 0 then (1/2) * (emf2v g s k j i + emf2v g s k j (i+1))
      else if p = 1 then -((1/2) * (emf1v g s k j i + emf1v g s k (j+1) i))
      else if p = 2 then 0
      else s.F3 p k j i
    else s.F3 p k j i

/-- Corner EMF of B_FluxCT::FluxCT2D, computed on [js,je+1]x[is,ie+1] in the
    single k = 0 plane. -/
def emf2dv (g : Grid) (s : BState) (j i : ℤ) : ℚ :=
  if g.gjs ≤ j ∧ j ≤ g.gje + 1 ∧ g.gis ≤ i ∧ i ≤ g.gie + 1 then
    (1/4) * (s.F1 1 0 j i + s.F1 1 0 (j-1) i - s.F2 0 0 j i - s.F2 0 0 j (i-1))
  else 0

/-- The 2D flux rewrite of B_FluxCT::FluxCT2D (kernels flux_ct_1 and
    flux_ct_2 of the non-fused path); F3 is not touched. -/
def fluxCT2D (g : Grid) (s : BState) : BState where
  F1 := fun p k j i =>
    if k = 0 ∧ g.gjs ≤ j ∧ j ≤ g.gje ∧ g.gis ≤ i ∧ i ≤ g.gie + 1 then
      if p = 0 then 0
      else if p = 1 then (1/2) * (emf2dv g s j i + emf2dv g s (j+1) i)
      else s.F1 p k j i
    else s.F1 p k j i
  F2 := fun p k j i =>
    if k = 0 ∧ g.gjs ≤ j ∧ j ≤ g.gje + 1 ∧ g.gis ≤ i ∧ i ≤ g.gie then
      if p = 0 then -((1/2) * (emf2dv g s j i + emf2dv g s j (i+1)))
      else if p = 1 then 0
      else s.F2 p k j i
    else s.F2 p k j i
  F3 := s.F3

/-- B_FluxCT::FluxCT entry: dispatches on ndim (2D path, 1D no-op, 3D path). -/
def fluxCT (g : Grid) (s : BState) : BState :=
  if g.ndim = 2 then fluxCT2D g s
  else if g.ndim = 1 then s
  else fluxCT3D g s

/-- je_e of FixPolarFlux: je + 1 when ndim > 1, else je. -/
def jeE (g : Grid) : ℤ := if 1 < g.ndim then g.gje + 1 else g.gje

/-- ke_e of FixPolarFlux: ke + 1 when ndim > 2, else ke. -/
def keE (g : Grid) : ℤ := if 2 < g.ndim then g.gke + 1 else g.gke

/-- Kernel fix_flux_b_l of B_FluxCT::FixPolarFlux: inner x2 (polar) boundary
    correction, iterating k in [ks,ke_e], j = js, i in [is,ie+1]. -/
def fixPolarInner (g : Grid) (s : BState) : BState where
  F1 := fun p k j i =>
    if p = 1 ∧ j = g.gjs - 1 ∧ g.gks ≤ k ∧ k ≤ keE g ∧ g.gis ≤ i ∧ i ≤ g.gie + 1 then
      -(s.F1 1 k g.gjs i)
    else s.F1 p k j i
  F2 := fun p k j i =>
    if 1 < g.ndim ∧ p = 1 ∧ j = g.gjs ∧ g.gks ≤ k ∧ k ≤ keE g ∧ g.gis ≤ i ∧ i ≤ g.gie + 1 then
      0
    else s.F2 p k j i
  F3 := fun p k j i =>
    if 2 < g.ndim ∧ p = 1 ∧ j = g.gjs - 1 ∧ g.gks ≤ k ∧ k ≤ keE g ∧ g.gis ≤ i ∧ i ≤ g.gie + 1 then
      -(s.F3 1 k g.gjs i)
    else s.F3 p k j i

/-- Kernel fix_flux_b_r of B_FluxCT::FixPolarFlux: outer x2 (polar) boundary
    correction, iterating k in [ks,ke_e], j = je_e, i in [is,ie+1]. -/
def fixPolarOuter (g : Grid) (s : BState) : BState where
  F1 := fun p k j i =>
    if p = 1 ∧ j = jeE g ∧ g.gks ≤ k ∧ k ≤ keE g ∧ g.gis ≤ i ∧ i ≤ g.gie + 1 then
      -(s.F1 1 k g.gje i)
    else s.F1 p k j i
  F2 := fun p k j i =>
    if 1 < g.ndim ∧ p = 1 ∧ j = jeE g ∧ g.gks ≤ k ∧ k ≤ keE g ∧ g.gis ≤ i ∧ i ≤ g.gie + 1 then
      0
    else s.F2 p k j i
  F3 := fun p k j i =>
    if 2 < g.ndim ∧ p = 1 ∧ j = jeE g ∧ g.gks ≤ k ∧ k ≤ keE g ∧ g.gis ≤ i ∧ i ≤ g.gie + 1 then
      -(s.F3 1 k g.gje i)
    else s.F3 p k j i

/-- B_FluxCT::FixPolarFlux: apply the inner correction when the inner x2
    boundary flag is user, then the outer correction when the outer flag is. -/
def fixPolarFlux (g : Grid) (s : BState) : BState :=
  let s1 := if g.innerX2user then fixPolarInner g s else s
  if g.outerX2user then fixPolarOuter g s1 else s1

/-- B_FluxCT::TransportB: applies FixPolarFlux when the fix_polar_flux
    parameter is set, then FluxCT.  The disable_flux_ct parameter registered
    by B_FluxCT::Initialize is carried here to model the package
    configuration surface; the body of TransportB never reads it. -/
def transportB (fixPolar disableFluxCT : Bool) (g : Grid) (s : BState) : BState :=
  fluxCT g (if fixPolar then fixPolarFlux g s else s)

/-! FOFC (Flux::FOFC, src/kharma/containers.hpp).  The flag fields hold
    integer values (the code casts them to int before comparing with 0);
    primitives, fluxes and wavespeeds are Real-valued.  The physics
    helpers prim_to_flux and vchar_global live in flux.hpp outside the
    provided sources and are opaque per-face functions of the primitive
    state there, so they are parameters of the embedding. -/

structure Rng3 where
  rks : ℤ
  rke : ℤ
  rjs : ℤ
  rje : ℤ
  ris : ℤ
  rie : ℤ

/-- Membership of a (k,j,i) triple in a three-axis closed index range. -/
abbrev Rng3.memb (r : Rng3) (k j i : ℤ) : Prop :=
  r.rks ≤ k ∧ k ≤ r.rke ∧ r.rjs ≤ j ∧ j ≤ r.rje ∧ r.ris ≤ i ∧ i ≤ r.rie

/-- Mesh shape for FOFC: block count, dimensionality, the cell range of the
    fofc_replacement flag pass (KDomain::GetRange(md, interior, -1, 1)) and
    the per-direction face ranges (KDomain::GetRange(md, interior, el, -1, 1)).
    KDomain lives outside the provided sources, so the ranges are data here. -/
structure FGrid where
  nb : ℕ
  ndim : ℕ
  flagRng : Rng3
  faceRng : ℕ → Rng3

/-- State touched by Flux::FOFC: the three flag fields, the cell-center
    primitive pack P_all, the per-direction fluxes of the conserved pack
    U_all, and the stored wavespeeds Flux.cmax / Flux.cmin (indexed by
    dir - 1 as in the code).  The Flux.Pl/Pr/Ul/Ur/Fl/Fr scratch packs are
    written and read only inside a single kernel iteration, so they appear
    below as local values of the per-face computation. -/
structure FState (nvar : ℕ) where
  fflag : ℕ → ℤ → ℤ → ℤ → ℤ
  pflag : ℕ → ℤ → ℤ → ℤ → ℤ
  fofcflag : ℕ → ℤ → ℤ → ℤ → ℤ
  P : ℕ → Fin nvar → ℤ → ℤ → ℤ → ℚ
  flux : ℕ → ℕ → Fin nvar → ℤ → ℤ → ℤ → ℚ
  cmax : ℕ → ℕ → ℤ → ℤ → ℤ → ℚ
  cmin : ℕ → ℕ → ℤ → ℤ → ℤ → ℚ

/-- Opaque physics of flux.hpp: prim_to_flux (arguments: block, k, j, i,
    flux direction where 0 means the conserved state, face location, and
    the primitive vector; returns the conserved/flux vector) and
    vchar_global (returns the pair cmax, cmin of characteristic speeds). -/
structure Phys (nvar : ℕ) where
  primToFlux : ℕ → ℤ → ℤ → ℤ → ℕ → ℕ → (Fin nvar → ℚ) → Fin nvar → ℚ
  vchar : ℕ → ℤ → ℤ → ℤ → ℕ → (Fin nvar → ℚ) → ℚ × ℚ

/-- Modelled from the spec: the Local-Lax-Friedrichs combiner llf of
    flux.hpp, which is not among the provided sources.  The spec gives
    F = 0.5*(Fl + Fr) - 0.5*max(cmax, cmin)*(Ur - Ul). -/
def llf (fl fr cmaxv cminv ul ur : ℚ) : ℚ :=
  (1/2) * (fl + fr) - (1/2) * max cmaxv cminv * (ur - ul)

/-- First pass of Flux::FOFC (kernel fofc_replacement over cells): raise
    fofcflag to 1 wherever fflag or pflag is positive. -/
def fofcFlagPass (g : FGrid) {nvar : ℕ} (s : FState nvar) : FState nvar :=
  { s with fofcflag := fun b k j i =>
      if b < g.nb ∧ g.flagRng.memb k j i ∧
         (0 < s.fflag b k j i ∨ 0 < s.pflag b k j i) then 1
      else s.fofcflag b k j i }

/-- Index offset of a face's trailing cell along axis 1 (the code's ii). -/
def dI (dir : ℕ) : ℤ := if dir = 1 then 1 else 0

/-- Index offset of a face's trailing cell along axis 2 (the code's jj). -/
def dJ (dir : ℕ) : ℤ := if dir = 2 then 1 else 0

/-- Index offset of a face's trailing cell along axis 3 (the code's kk). -/
def dK (dir : ℕ) : ℤ := if dir = 3 then 1 else 0

/-- Left ("reconstructed" flat) primitive state at a face: the cell-center
    primitives of the trailing cell, read from the primitive pack P. -/
def fofcPl {nvar : ℕ} (P : ℕ → Fin nvar → ℤ → ℤ → ℤ → ℚ) (dir : ℕ)
    (b : ℕ) (k j i : ℤ) : Fin nvar → ℚ :=
  fun q => P b q (k - dK dir) (j - dJ dir) (i - dI dir)

/-- Right primitive state at a face: the cell-center primitives of the
    cell sharing the face index. -/
def fofcPr {nvar : ℕ} (P : ℕ → Fin nvar → ℤ → ℤ → ℤ → ℚ) (b : ℕ) (k j i : ℤ) : Fin nvar → ℚ :=
  fun q => P b q k j i

/-- The cmax value Flux::FOFC stores at a corrected face: first
    max(0, cmaxL), then abs(max(previous, cmaxR)). -/
def fofcCmax {nvar : ℕ} (ph : Phys nvar) (dir : ℕ) (P : ℕ → Fin nvar → ℤ → ℤ → ℤ → ℚ)
    (b : ℕ) (k j i : ℤ) : ℚ :=
  |max (max 0 (ph.vchar b k j i dir (fofcPl P dir b k j i)).1)
       (ph.vchar b k j i dir (fofcPr P b k j i)).1|

/-- The cmin value Flux::FOFC stores at a corrected face: first
    max(0, -cminL), then abs(max(previous, -cminR)). -/
def fofcCmin {nvar : ℕ} (ph : Phys nvar) (dir : ℕ) (P : ℕ → Fin nvar → ℤ → ℤ → ℤ → ℚ)
    (b : ℕ) (k j i : ℤ) : ℚ :=
  |max (max 0 (-(ph.vchar b k j i dir (fofcPl P dir b k j i)).2))
       (-(ph.vchar b k j i dir (fofcPr P b k j i)).2)|

/-- The LLF flux Flux::FOFC writes at a corrected face, for one variable:
    states and raw fluxes recomputed from the flat-reconstructed
    primitives, speeds as stored by fofcCmax/fofcCmin. -/
def fofcFaceFlux {nvar : ℕ} (ph : Phys nvar) (dir : ℕ) (P : ℕ → Fin nvar → ℤ → ℤ → ℤ → ℚ)
    (b : ℕ) (q : Fin nvar) (k j i : ℤ) : ℚ :=
  llf (ph.primToFlux b k j i dir dir (fofcPl P dir b k j i) q)
      (ph.primToFlux b k j i dir dir (fofcPr P b k j i) q)
      (fofcCmax ph dir P b k j i)
      (fofcCmin ph dir P b k j i)
      (ph.primToFlux b k j i 0 dir (fofcPl P dir b k j i) q)
      (ph.primToFlux b k j i 0 dir (fofcPr P b k j i) q)

/-- Second pass of Flux::FOFC for one direction (kernel fofc_replacement
    over faces): where either bordering cell is marked, overwrite the flux
    of every variable with the LLF combination and store the recomputed
    speeds in the dir - 1 slots of Flux.cmax / Flux.cmin. -/
def fofcFacePass (g : FGrid) {nvar : ℕ} (ph : Phys nvar) (dir : ℕ)
    (s : FState nvar) : FState nvar :=
  { s with
    flux := fun d b q k j i =>
      if d = dir ∧ b < g.nb ∧ (g.faceRng dir).memb k j i ∧
         (0 < s.fofcflag b k j i ∨
          0 < s.fofcflag b (k - dK dir) (j - dJ dir) (i - dI dir)) then
        fofcFaceFlux ph dir s.P b q k j i
      else s.flux d b q k j i
    cmax := fun d b k j i =>
      if d = dir - 1 ∧ b < g.nb ∧ (g.faceRng dir).memb k j i ∧
         (0 < s.fofcflag b k j i ∨
          0 < s.fofcflag b (k - dK dir) (j - dJ dir) (i - dI dir)) then
        fofcCmax ph dir s.P b k j i
      else s.cmax d b k j i
    cmin := fun d b k j i =>
      if d = dir - 1 ∧ b < g.nb ∧ (g.faceRng dir).memb k j i ∧
         (0 < s.fofcflag b k j i ∨
          0 < s.fofcflag b (k - dK dir) (j - dJ dir) (i - dI dir)) then
        fofcCmin ph dir s.P b k j i
      else s.cmin d b k j i }

/-- Flux::FOFC: the flag pass, then the face pass for every direction
    dir = 1, 2, 3 with dir ≤ ndim (the code's continue skips the rest). -/
def fofc (g : FGrid) {nvar : ℕ} (ph : Phys nvar) (s : FState nvar) : FState nvar :=
  let s0 := fofcFlagPass g s
  let s1 := if 1 ≤ g.ndim then fofcFacePass g ph 1 s0 else s0
  let s2 := if 2 ≤ g.ndim then fofcFacePass g ph 2 s1 else s1
  if 3 ≤ g.ndim then fofcFacePass g ph 3 s2 else s2

/-! VarMap (types.hpp).  PackIndexMap lookups are modelled as a function
    from field names to the slot index the pack reports, with -1 for a
    name absent from the pack (Parthenon's sentinel).  The C++ PASSIVE
    member is never assigned by the constructor and is left out. -/

structure VarMap where
  RHO : ℤ
  UU : ℤ
  U1 : ℤ
  U2 : ℤ
  U3 : ℤ
  B1 : ℤ
  B2 : ℤ
  B3 : ℤ
  RHO_ADDED : ℤ
  UU_ADDED : ℤ
  KTOT : ℤ
  K_CONSTANT : ℤ
  K_HOWES : ℤ
  K_KAWAZURA : ℤ
  K_WERNER : ℤ
  K_ROWAN : ℤ
  K_SHARMA : ℤ
  PSI : ℤ
  Q : ℤ
  DP : ℤ

/-- The VarMap constructor: look up each name in the pack index map (the
    cons.* names when is_cons, else the prims.* names), then derive
    U2 = U1 + 1, U3 = U1 + 2, B2 = B1 + 1, B3 = B1 + 2 unconditionally. -/
def mkVarMap (nameMap : String → ℤ) (isCons : Bool) : VarMap :=
  if isCons then
    { RHO := nameMap ("cons.rho")
      UU := nameMap ("cons.u")
      U1 := nameMap ("cons.uvec")
      U2 := nameMap ("cons.uvec") + 1
      U3 := nameMap ("cons.uvec") + 2
      B1 := nameMap ("cons.B")
      B2 := nameMap ("cons.B") + 1
      B3 := nameMap ("cons.B") + 2
      RHO_ADDED := nameMap ("cons.rho_added")
      UU_ADDED := nameMap ("cons.u_added")
      KTOT := nameMap ("cons.Ktot")
      K_CONSTANT := nameMap ("cons.Kel_Constant")
      K_HOWES := nameMap ("cons.Kel_Howes")
      K_KAWAZURA := nameMap ("cons.Kel_Kawazura")
      K_WERNER := nameMap ("cons.Kel_Werner")
      K_ROWAN := nameMap ("cons.Kel_Rowan")
      K_SHARMA := nameMap ("cons.Kel_Sharma")
      PSI := nameMap ("cons.psi_cd")
      Q := nameMap ("cons.q")
      DP := nameMap ("cons.dP") }
  else
    { RHO := nameMap ("prims.rho")
      UU := nameMap ("prims.u")
      U1 := nameMap ("prims.uvec")
      U2 := nameMap ("prims.uvec") + 1
      U3 := nameMap ("prims.uvec") + 2
      B1 := nameMap ("prims.B")
      B2 := nameMap ("prims.B") + 1
      B3 := nameMap ("prims.B") + 2
      RHO_ADDED := nameMap ("prims.rho_added")
      UU_ADDED := nameMap ("prims.u_added")
      KTOT := nameMap ("prims.Ktot")
      K_CONSTANT := nameMap ("prims.Kel_Constant")
      K_HOWES := nameMap ("prims.Kel_Howes")
      K_KAWAZURA := nameMap ("prims.Kel_Kawazura")
      K_WERNER := nameMap ("prims.Kel_Werner")
      K_ROWAN := nameMap ("prims.Kel_Rowan")
      K_SHARMA := nameMap ("prims.Kel_Sharma")
      PSI := nameMap ("prims.psi_cd")
      Q := nameMap ("prims.q")
      DP := nameMap ("prims.dP") }

/-! B_FluxCT::UtoP.  cons.B and prims.B are (component, k, j, i) arrays per
    block; gdet is G.gdet(Loci::center, j, i). -/

structure BFieldState where
  consB : ℕ → ℤ → ℤ → ℤ → ℚ
  primsB : ℕ → ℤ → ℤ → ℤ → ℚ

/-- Per-block B_FluxCT::UtoP: over components 0..NVEC-1 and the requested
    bounds, set prims.B = cons.B / gdet(center, j, i).  cons.B is not
    written. -/
def utoP (gdet : ℤ → ℤ → ℚ) (r : Rng3) (s : BFieldState) : BFieldState where
  consB := s.consB
  primsB := fun p k j i =>
    if p ≤ 2 ∧ r.memb k j i then s.consB p k j i / gdet j i
    else s.primsB p k j i

/-- Mesh-wide state for the whole-mesh UtoP variant: one pair of arrays per
    block index. -/
structure MFieldState where
  consB : ℕ → ℕ → ℤ → ℤ → ℤ → ℚ
  primsB : ℕ → ℕ → ℤ → ℤ → ℤ → ℚ

/-- Mesh-wide B_FluxCT::UtoP: same update per block, with the per-block
    gdet and the vector dimension taken from the pack. -/
def utoPMesh (nb nvec : ℕ) (gdet : ℕ → ℤ → ℤ → ℚ) (r : Rng3)
    (s : MFieldState) : MFieldState where
  consB := s.consB
  primsB := fun b p k j i =>
    if b < nb ∧ p < nvec ∧ r.memb k j i then s.consB b p k j i / gdet b j i
    else s.primsB b p k j i

/-! B_FluxCT::MaxDivB (mesh-wide variant).  The reduction ranges stay one
    cell off the left edge of the interior in every in-use direction; the
    Kokkos Max reducer is a fold of max.  Its identity element is the least
    double; every contribution here is an absolute value, hence
    non-negative, so on a non-empty range folding from 0 computes the same
    maximum. -/

structure DivGrid where
  ndim : ℕ
  nb : ℕ
  dis : ℤ
  die : ℤ
  djs : ℤ
  dje : ℤ
  dks : ℤ
  dke : ℤ
  dx1 : ℕ → ℤ → ℚ
  dx2 : ℕ → ℤ → ℚ
  dx3 : ℕ → ℤ → ℚ

/-- The corner-averaged divergence estimate at one cell: norm is 0.25 in 3D
    and 0.5 in 2D; term1/term2 use the 4-point (2D) or 8-point (3D) corner
    stencils of B1/B2, term3 the 8-point stencil of B3 in 3D and 0 in 2D. -/
def divbPoint (g : DivGrid) (B : ℕ → ℕ → ℤ → ℤ → ℤ → ℚ) (b : ℕ) (k j i : ℤ) : ℚ :=
  let norm : ℚ := if 2 < g.ndim then 1/4 else 1/2
  let term1 :=
    (B b 0 k j i + B b 0 k (j-1) i - B b 0 k j (i-1) - B b 0 k (j-1) (i-1)) +
    (if 2 < g.ndim then
       B b 0 (k-1) j i + B b 0 (k-1) (j-1) i - B b 0 (k-1) j (i-1) - B b 0 (k-1) (j-1) (i-1)
     else 0)
  let term2 :=
    (B b 1 k j i + B b 1 k j (i-1) - B b 1 k (j-1) i - B b 1 k (j-1) (i-1)) +
    (if 2 < g.ndim then
       B b 1 (k-1) j i + B b 1 (k-1) j (i-1) - B b 1 (k-1) (j-1) i - B b 1 (k-1) (j-1) (i-1)
     else 0)
  let term3 :=
    if 2 < g.ndim then
      B b 2 k j i + B b 2 k (j-1) i + B b 2 k j (i-1) + B b 2 k (j-1) (i-1)
      - B b 2 (k-1) j i - B b 2 (k-1) (j-1) i - B b 2 (k-1) j (i-1) - B b 2 (k-1) (j-1) (i-1)
    else 0
  |norm * term1 / g.dx1 b i + norm * term2 / g.dx2 b j + norm * term3 / g.dx3 b k|

/-- One step of the Kokkos max-reduction: fold the divergence estimate at
    one index tuple into the running maximum. -/
def divbStep (g : DivGrid) (B : ℕ → ℕ → ℤ → ℤ → ℤ → ℚ) (acc : ℚ)
    (x : ℕ × ℤ × ℤ × ℤ) : ℚ :=
  max acc (divbPoint g B x.1 x.2.1 x.2.2.1 x.2.2.2)

/-- List of the integers of a closed interval. -/
def intRange (a b : ℤ) : List ℤ :=
  (List.range (b + 1 - a).toNat).map (fun (n : ℕ) => a + (n : ℤ))

/-- Low k bound of the reduction: ks + 1 in 3D, ks in 2D (kl in the code). -/
def divKlo (g : DivGrid) : ℤ := if 2 < g.ndim then g.dks + 1 else g.dks

/-- The (block, k, j, i) tuples par_reduce iterates: blocks 0..nb-1, cells
    in [kl, ke] x [js+1, je] x [is+1, ie]. -/
def divbIndices (g : DivGrid) : List (ℕ × ℤ × ℤ × ℤ) :=
  (List.range g.nb).flatMap (fun b =>
    (intRange (divKlo g) g.dke).flatMap (fun k =>
      (intRange (g.djs + 1) g.dje).flatMap (fun j =>
        (intRange (g.dis + 1) g.die).map (fun i => (b, k, j, i)))))

/-- B_FluxCT::MaxDivB: 0 when ndim < 2, else the max-reduction of the
    divergence estimate over blocks and the edge-shifted interior. -/
def maxDivB (g : DivGrid) (B : ℕ → ℕ → ℤ → ℤ → ℤ → ℚ) : ℚ :=
  if g.ndim < 2 then 0
  else (divbIndices g).foldl (divbStep g B) 0

/-- The (block, k, j, i) tuples of every interior cell, used by the
    claim-side reading of the reduction. -/
def divbIndicesAll (g : DivGrid) : List (ℕ × ℤ × ℤ × ℤ) :=
  (List.range g.nb).flatMap (fun b =>
    (intRange g.dks g.dke).flatMap (fun k =>
      (intRange g.djs g.dje).flatMap (fun j =>
        (intRange g.dis g.die).map (fun i => (b, k, j, i)))))

/-- Modelled from the claim's words, for comparison with maxDivB: the same
    reduction taken over ALL interior cells [ks,ke] x [js,je] x [is,ie] of
    every block, with the same divergence estimate. -/
def maxDivBAllInterior (g : DivGrid) (B : ℕ → ℕ → ℤ → ℤ → ℤ → ℚ) : ℚ :=
  if g.ndim < 2 then 0
  else (divbIndicesAll g).foldl (divbStep g B) 0

/-! Concrete instances used as witnesses and counterexamples. -/

/-- All-zero flux state. -/
def sEx0 : BState := ⟨fun _ _ _ _ => 0, fun _ _ _ _ => 0, fun _ _ _ _ => 0⟩

/-- A 3D block with interior [0,2] on each axis, no polar boundaries. -/
def gEx1 : Grid := ⟨3, 0, 2, 0, 2, 0, 2, false, false⟩

/-- A 3D block with polar (user) boundaries on both x2 sides. -/
def gEx6 : Grid := ⟨3, 0, 2, 1, 2, 0, 1, true, true⟩

/-- A 2D block with a one-cell interior. -/
def gEx7 : Grid := ⟨2, 1, 1, 1, 1, 0, 0, false, false⟩

/-- Flux state with F1 of B2 equal to 1 everywhere and everything else 0. -/
def sEx7 : BState := ⟨fun p _ _ _ => if p = 1 then 1 else 0, fun _ _ _ _ => 0, fun _ _ _ _ => 0⟩

/-- A one-row index range [0,0] x [0,0] x [0,4] for FOFC instances. -/
def rngW : Rng3 := ⟨0, 0, 0, 0, 0, 4⟩

/-- A one-block 1D FOFC mesh using rngW for every pass. -/
def fgW : FGrid := ⟨1, 1, rngW, fun _ => rngW⟩

/-- Concrete physics: the conserved state is the primitive itself, the raw
    flux doubles it, and the wavespeeds are (1, -1) everywhere. -/
def phW : Phys 1 :=
  ⟨fun _ _ _ _ fd _ pr q => pr q * (if fd = 0 then 1 else 2), fun _ _ _ _ _ _ => (1, -1)⟩

/-- FOFC state with all flags 0, primitives 2 and fluxes 0. -/
def sW : FState 1 :=
  ⟨fun _ _ _ _ => 0, fun _ _ _ _ => 0, fun _ _ _ _ => 0,
   fun _ _ _ _ _ => 2, fun _ _ _ _ _ _ => 0, fun _ _ _ _ _ => 0, fun _ _ _ _ _ => 0⟩

/-- sW with pflag raised at the single cell (0, 0, 0, 1). -/
def tW : FState 1 :=
  { sW with pflag := fun b k j i => if b = 0 ∧ k = 0 ∧ j = 0 ∧ i = 1 then 1 else 0 }

/-- sW with fflag raised at the single cell (0, 0, 0, 1). -/
def sC3 : FState 1 :=
  { sW with fflag := fun b k j i => if b = 0 ∧ k = 0 ∧ j = 0 ∧ i = 1 then 1 else 0 }

/-- sW with a stale fofcflag at the single cell (0, 0, 0, 1) while fflag
    and pflag are zero everywhere. -/
def sC4 : FState 1 :=
  { sW with fofcflag := fun b k j i => if b = 0 ∧ k = 0 ∧ j = 0 ∧ i = 1 then 1 else 0 }

/-- A pack index map reporting every name absent (-1). -/
def nmEmpty : String → ℤ := fun _ => -1

/-- A single-cell index range. -/
def rngU : Rng3 := ⟨0, 0, 0, 0, 0, 0⟩

/-- A constant metric determinant 2. -/
def gdetW : ℤ → ℤ → ℚ := fun _ _ => 2

/-- A constant per-block metric determinant 2. -/
def gdetMW : ℕ → ℤ → ℤ → ℚ := fun _ _ _ => 2

/-- Field state with cons.B equal to 3 everywhere and prims.B zero. -/
def bfW : BFieldState := ⟨fun _ _ _ _ => 3, fun _ _ _ _ => 0⟩

/-- Mesh field state with cons.B equal to 3 everywhere and prims.B zero. -/
def mfW : MFieldState := ⟨fun _ _ _ _ _ => 3, fun _ _ _ _ _ => 0⟩

/-- A 2D one-block divergence grid with interior [1,2] x [1,2] x [0,0] and
    unit cell widths. -/
def gD : DivGrid := ⟨2, 1, 1, 2, 1, 2, 0, 0, fun _ _ => 1, fun _ _ => 1, fun _ _ => 1⟩

/-- cons.B with B1 equal to 1 at the single cell (k,j,i) = (0,0,1). -/
def BD : ℕ → ℕ → ℤ → ℤ → ℤ → ℚ :=
  fun _ p k j i => if p = 0 ∧ k = 0 ∧ j = 0 ∧ i = 1 then 1 else 0

end Kharma

namespace Kharma

/-! Helper lemmas. -/

/-- Unfold fixPolarFlux into its two conditional kernel launches. -/
theorem fixPolarFlux_reduce (g : Grid) (s : BState) :
    fixPolarFlux g s =
      (if g.outerX2user then
        fixPolarOuter g (if g.innerX2user then fixPolarInner g s else s)
       else (if g.innerX2user then fixPolarInner g s else s)) := rfl

/-! Claim theorems. -/

/-- C1: after the constrained-transport rewrite (FluxCT, both the 3D path
    and the 2D path), the flux of each magnetic-field component along its
    own axis is exactly 0 at every face in the written range: F1(B1)=0 and
    F2(B2)=0 for all covered k, j, i, and in 3D also F3(B3)=0. -/
theorem fluxct_self_flux_zero (g : Grid) (s : BState) (k j i : ℤ) :
    (g.ndim = 2 →
      (k = 0 → g.gjs ≤ j → j ≤ g.gje → g.gis ≤ i → i ≤ g.gie + 1 →
        (fluxCT g s).F1 0 k j i = 0) ∧
      (k = 0 → g.gjs ≤ j → j ≤ g.gje + 1 → g.gis ≤ i → i ≤ g.gie →
        (fluxCT g s).F2 1 k j i = 0)) ∧
    (3 ≤ g.ndim →
      (g.gks ≤ k → k ≤ g.gke → g.gjs ≤ j → j ≤ g.gje → g.gis ≤ i → i ≤ g.gie + 1 →
        (fluxCT g s).F1 0 k j i = 0) ∧
      (g.gks ≤ k → k ≤ g.gke → g.gjs ≤ j → j ≤ g.gje + 1 → g.gis ≤ i → i ≤ g.gie →
        (fluxCT g s).F2 1 k j i = 0) ∧
      (g.gks ≤ k → k ≤ g.gke + 1 → g.gjs ≤ j → j ≤ g.gje → g.gis ≤ i → i ≤ g.gie →
        (fluxCT g s).F3 2 k j i = 0)) := by
  constructor
  · intro h2
    constructor
    · intro hk hj1 hj2 hi1 hi2
      simp only [fluxCT, if_pos h2, fluxCT2D]
      rw [if_pos ⟨hk, hj1, hj2, hi1, hi2⟩]
      norm_num
    · intro hk hj1 hj2 hi1 hi2
      simp only [fluxCT, if_pos h2, fluxCT2D]
      rw [if_pos ⟨hk, hj1, hj2, hi1, hi2⟩]
      norm_num
  · intro h3
    have hn2 : ¬ g.ndim = 2 := by omega
    have hn1 : ¬ g.ndim = 1 := by omega
    refine ⟨?_, ?_, ?_⟩ <;> intro hk1 hk2 hj1 hj2 hi1 hi2 <;>
      simp only [fluxCT, if_neg hn2, if_neg hn1, fluxCT3D] <;>
      rw [if_pos ⟨hk1, hk2, hj1, hj2, hi1, hi2⟩] <;> norm_num

/-- C1 witness: the self-flux of each component vanishes at a concrete
    face of a concrete 3D configuration. -/
theorem fluxct_self_flux_zero_witness :
    (fluxCT gEx1 sEx0).F1 0 0 0 0 = 0 ∧ (fluxCT gEx1 sEx0).F2 1 0 0 0 = 0 ∧
    (fluxCT gEx1 sEx0).F3 2 0 0 0 = 0 := by
  have h := (fluxct_self_flux_zero gEx1 sEx0 0 0 0).2 (by decide)
  exact ⟨h.1 (by decide) (by decide) (by decide) (by decide) (by decide) (by decide),
         h.2.1 (by decide) (by decide) (by decide) (by decide) (by decide) (by decide),
         h.2.2 (by decide) (by decide) (by decide) (by decide) (by decide) (by decide)⟩

/-- C2: in 3D, FluxCT computes edge EMFs as antisymmetric quarter-sums of
    the pre-call face fluxes (emf3 from F1(B2) and F2(B1), and cyclically
    for emf2 and emf1 with right-hand-rule signs), then overwrites each
    transverse magnetic flux with plus-or-minus one half the sum of the
    two adjacent EMFs. -/
theorem fluxct_emf_formulas (g : Grid) (s : BState) (k j i : ℤ) (h3 : 3 ≤ g.ndim) :
    (g.gks ≤ k ∧ k ≤ g.gke + 1 ∧ g.gjs ≤ j ∧ j ≤ g.gje + 1 ∧ g.gis ≤ i ∧ i ≤ g.gie + 1 →
      emf3v g s k j i =
        (1/4) * (s.F1 1 k j i + s.F1 1 k (j-1) i - s.F2 0 k j i - s.F2 0 k j (i-1)) ∧
      emf2v g s k j i =
        -((1/4) * (s.F1 2 k j i + s.F1 2 (k-1) j i - s.F3 0 k j i - s.F3 0 k j (i-1))) ∧
      emf1v g s k j i =
        (1/4) * (s.F2 2 k j i + s.F2 2 (k-1) j i - s.F3 1 k j i - s.F3 1 k (j-1) i)) ∧
    (g.gks ≤ k ∧ k ≤ g.gke ∧ g.gjs ≤ j ∧ j ≤ g.gje ∧ g.gis ≤ i ∧ i ≤ g.gie + 1 →
      (fluxCT g s).F1 1 k j i = (1/2) * (emf3v g s k j i + emf3v g s k (j+1) i) ∧
      (fluxCT g s).F1 2 k j i = -((1/2) * (emf2v g s k j i + emf2v g s (k+1) j i))) ∧
    (g.gks ≤ k ∧ k ≤ g.gke ∧ g.gjs ≤ j ∧ j ≤ g.gje + 1 ∧ g.gis ≤ i ∧ i ≤ g.gie →
      (fluxCT g s).F2 0 k j i = -((1/2) * (emf3v g s k j i + emf3v g s k j (i+1))) ∧
      (fluxCT g s).F2 2 k j i = (1/2) * (emf1v g s k j i + emf1v g s (k+1) j i)) ∧
    (g.gks ≤ k ∧ k ≤ g.gke + 1 ∧ g.gjs ≤ j ∧ j ≤ g.gje ∧ g.gis ≤ i ∧ i ≤ g.gie →
      (fluxCT g s).F3 0 k j i = (1/2) * (emf2v g s k j i + emf2v g s k j (i+1)) ∧
      (fluxCT g s).F3 1 k j i = -((1/2) * (emf1v g s k j i + emf1v g s k (j+1) i))) := by
  have hn2 : ¬ g.ndim = 2 := by omega
  have hn1 : ¬ g.ndim = 1 := by omega
  refine ⟨fun hr => ?_, fun hr => ?_, fun hr => ?_, fun hr => ?_⟩
  · refine ⟨?_, ?_, ?_⟩ <;> simp only [emf3v, emf2v, emf1v] <;> rw [if_pos hr]
  · constructor <;> simp only [fluxCT, if_neg hn2, if_neg hn1, fluxCT3D] <;>
      rw [if_pos hr] <;> norm_num
  · constructor <;> simp only [fluxCT, if_neg hn2, if_neg hn1, fluxCT3D] <;>
      rw [if_pos hr] <;> norm_num
  · constructor <;> simp only [fluxCT, if_neg hn2, if_neg hn1, fluxCT3D] <;>
      rw [if_pos hr] <;> norm_num

/-- C2 witness: the EMF formula and a rewrite formula at a concrete
    corner and face. -/
theorem fluxct_emf_formulas_witness :
    emf3v gEx1 sEx0 0 0 0 =
      (1/4) * (sEx0.F1 1 0 0 0 + sEx0.F1 1 0 (0-1) 0 - sEx0.F2 0 0 0 0 - sEx0.F2 0 0 0 (0-1)) ∧
    (fluxCT gEx1 sEx0).F1 1 0 0 0 =
      (1/2) * (emf3v gEx1 sEx0 0 0 0 + emf3v gEx1 sEx0 0 (0+1) 0) := by
  have h := fluxct_emf_formulas gEx1 sEx0 0 0 0 (by decide)
  exact ⟨(h.1 (by decide)).1, (h.2.1 (by decide)).1⟩

/-- C6: after FixPolarFlux, at an inner x2 user (polar) boundary the flux
    F2(B2) at the pole row js is exactly 0 and F1(B2) just inside is the
    reflection of the boundary row with a sign flip, and symmetrically at
    an outer x2 user boundary, with F3(B2) reflected the same way in 3D. -/
theorem fixpolar_zero_and_reflect (g : Grid) (s : BState) (k i : ℤ)
    (hnd : 2 ≤ g.ndim) (hjj : g.gjs ≤ g.gje)
    (hk1 : g.gks ≤ k) (hk2 : k ≤ keE g) (hi1 : g.gis ≤ i) (hi2 : i ≤ g.gie + 1) :
    (g.innerX2user = true →
      (fixPolarFlux g s).F2 1 k g.gjs i = 0 ∧
      (fixPolarFlux g s).F1 1 k (g.gjs - 1) i = -((fixPolarFlux g s).F1 1 k g.gjs i) ∧
      (2 < g.ndim →
        (fixPolarFlux g s).F3 1 k (g.gjs - 1) i = -((fixPolarFlux g s).F3 1 k g.gjs i))) ∧
    (g.outerX2user = true →
      (fixPolarFlux g s).F2 1 k (g.gje + 1) i = 0 ∧
      (fixPolarFlux g s).F1 1 k (g.gje + 1) i = -((fixPolarFlux g s).F1 1 k g.gje i) ∧
      (2 < g.ndim →
        (fixPolarFlux g s).F3 1 k (g.gje + 1) i = -((fixPolarFlux g s).F3 1 k g.gje i))) := by
  have hje : jeE g = g.gje + 1 := if_pos (by omega)
  constructor
  · intro hin
    by_cases ho : g.outerX2user = true
    · refine ⟨?_, ?_, fun h3d => ?_⟩ <;>
        · rw [fixPolarFlux_reduce, if_pos ho, if_pos hin]
          simp only [fixPolarInner, fixPolarOuter]
          split_ifs <;>
            first
            | rfl
            | (exfalso
               simp only [true_and, and_true, not_and, not_true] at *
               omega)
    · refine ⟨?_, ?_, fun h3d => ?_⟩ <;>
        · rw [fixPolarFlux_reduce, if_neg ho, if_pos hin]
          simp only [fixPolarInner]
          split_ifs <;>
            first
            | rfl
            | (exfalso
               simp only [true_and, and_true, not_and, not_true] at *
               omega)
  · intro hout
    by_cases hin : g.innerX2user = true
    · refine ⟨?_, ?_, fun h3d => ?_⟩ <;>
        · rw [fixPolarFlux_reduce, if_pos hout, if_pos hin]
          simp only [fixPolarInner, fixPolarOuter]
          split_ifs <;>
            first
            | rfl
            | (exfalso
               simp only [true_and, and_true, not_and, not_true] at *
               omega)
    · refine ⟨?_, ?_, fun h3d => ?_⟩ <;>
        · rw [fixPolarFlux_reduce, if_pos hout, if_neg hin]
          simp only [fixPolarOuter]
          split_ifs <;>
            first
            | rfl
            | (exfalso
               simp only [true_and, and_true, not_and, not_true] at *
               omega)

/-- C6 witness: the polar corrections at a concrete block with user
    boundaries on both x2 sides. -/
theorem fixpolar_zero_and_reflect_witness :
    (fixPolarFlux gEx6 sEx7).F2 1 0 1 0 = 0 ∧
    (fixPolarFlux gEx6 sEx7).F1 1 0 0 0 = -((fixPolarFlux gEx6 sEx7).F1 1 0 1 0) ∧
    (fixPolarFlux gEx6 sEx7).F3 1 0 0 0 = -((fixPolarFlux gEx6 sEx7).F3 1 0 1 0) ∧
    (fixPolarFlux gEx6 sEx7).F2 1 0 3 0 = 0 ∧
    (fixPolarFlux gEx6 sEx7).F1 1 0 3 0 = -((fixPolarFlux gEx6 sEx7).F1 1 0 2 0) := by
  have h := fixpolar_zero_and_reflect gEx6 sEx7 0 0 (by decide) (by decide)
    (by decide) (by decide) (by decide) (by decide)
  exact ⟨(h.1 rfl).1, (h.1 rfl).2.1, (h.1 rfl).2.2 (by decide), (h.2 rfl).1,
         (h.2 rfl).2.1⟩

/-- C7 counterexample: with disable_flux_ct set, TransportB still changes
    a magnetic-field flux value, because its body never reads the flag. -/
theorem transportB_ignores_disable_cex :
    (transportB true true gEx7 sEx7).F1 1 0 1 1 ≠ sEx7.F1 1 0 1 1 := by
  have h : (transportB true true gEx7 sEx7).F1 1 0 1 1 = 1/2 := by
    norm_num [transportB, fixPolarFlux_reduce, gEx7, sEx7, fluxCT, fluxCT2D, emf2dv]
  rw [h]
  norm_num [sEx7]

/-- C7 amended: TransportB does not consult disable_flux_ct at all; with
    either value of the flag it applies FixPolarFlux (when fix_polar_flux
    is set) followed by FluxCT, so skipping constrained transport when
    disable_flux_ct is true is the callers responsibility. -/
theorem transportB_independent_of_disable (fp d1 d2 : Bool) (g : Grid) (s : BState) :
    transportB fp d1 g s = transportB fp d2 g s ∧
    transportB fp d1 g s = fluxCT g (if fp then fixPolarFlux g s else s) :=
  ⟨rfl, rfl⟩

end Kharma

namespace Kharma

/-! FOFC helper lemmas. -/

/-- Pointwise description of the flag pass. -/
theorem fofcFlagPass_fofcflag_eq {nvar : ℕ} (g : FGrid) (s : FState nvar)
    (b : ℕ) (k j i : ℤ) :
    (fofcFlagPass g s).fofcflag b k j i =
      if b < g.nb ∧ g.flagRng.memb k j i ∧
         (0 < s.fflag b k j i ∨ 0 < s.pflag b k j i)
      then 1 else s.fofcflag b k j i := rfl

/-- The flag pass does not touch the primitives. -/
theorem fofcFlagPass_P {nvar : ℕ} (g : FGrid) (s : FState nvar) :
    (fofcFlagPass g s).P = s.P := rfl

/-- The flag pass does not touch the fluxes. -/
theorem fofcFlagPass_flux {nvar : ℕ} (g : FGrid) (s : FState nvar) :
    (fofcFlagPass g s).flux = s.flux := rfl

/-- A face pass does not touch the fofcflag field. -/
theorem fofcFacePass_fofcflag {nvar : ℕ} (g : FGrid) (ph : Phys nvar) (dir : ℕ)
    (s : FState nvar) : (fofcFacePass g ph dir s).fofcflag = s.fofcflag := rfl

/-- A face pass does not touch the primitives. -/
theorem fofcFacePass_P {nvar : ℕ} (g : FGrid) (ph : Phys nvar) (dir : ℕ)
    (s : FState nvar) : (fofcFacePass g ph dir s).P = s.P := rfl

/-- A face pass for one direction leaves the fluxes of every other
    direction untouched. -/
theorem fofcFacePass_flux_ne {nvar : ℕ} {g : FGrid} {ph : Phys nvar} {dir d : ℕ}
    (h : d ≠ dir) {s : FState nvar} {b : ℕ} {q : Fin nvar} {k j i : ℤ} :
    (fofcFacePass g ph dir s).flux d b q k j i = s.flux d b q k j i := by
  simp only [fofcFacePass]
  rw [if_neg]
  rintro ⟨h1, -⟩
  exact h h1

/-- The flux a face pass leaves in its own direction slot. -/
theorem fofcFacePass_flux_eq {nvar : ℕ} (g : FGrid) (ph : Phys nvar) (dir : ℕ)
    (s : FState nvar) (b : ℕ) (q : Fin nvar) (k j i : ℤ) :
    (fofcFacePass g ph dir s).flux dir b q k j i =
      if b < g.nb ∧ (g.faceRng dir).memb k j i ∧
         (0 < s.fofcflag b k j i ∨
          0 < s.fofcflag b (k - dK dir) (j - dJ dir) (i - dI dir))
      then fofcFaceFlux ph dir s.P b q k j i
      else s.flux dir b q k j i := by
  simp only [fofcFacePass]
  by_cases h : b < g.nb ∧ (g.faceRng dir).memb k j i ∧
      (0 < s.fofcflag b k j i ∨
       0 < s.fofcflag b (k - dK dir) (j - dJ dir) (i - dI dir))
  · rw [if_pos ⟨trivial, h⟩, if_pos h]
  · rw [if_neg (fun hc => h hc.2), if_neg h]

/-- Closed form of the flux FOFC leaves in a direction it processes. -/
theorem fofc_flux_run {nvar : ℕ} (g : FGrid) (ph : Phys nvar) (s : FState nvar)
    (d b : ℕ) (q : Fin nvar) (k j i : ℤ)
    (hd : d = 1 ∨ d = 2 ∨ d = 3) (hle : d ≤ g.ndim) :
    (fofc g ph s).flux d b q k j i =
      if b < g.nb ∧ (g.faceRng d).memb k j i ∧
         (0 < (fofcFlagPass g s).fofcflag b k j i ∨
          0 < (fofcFlagPass g s).fofcflag b (k - dK d) (j - dJ d) (i - dI d))
      then fofcFaceFlux ph d s.P b q k j i
      else s.flux d b q k j i := by
  rcases hd with rfl | rfl | rfl
  · simp only [fofc]
    rw [if_pos hle]
    by_cases h2 : 2 ≤ g.ndim
    · rw [if_pos h2]
      by_cases h3 : 3 ≤ g.ndim
      · rw [if_pos h3, fofcFacePass_flux_ne (show (1:ℕ) ≠ 3 from by decide),
            fofcFacePass_flux_ne (show (1:ℕ) ≠ 2 from by decide), fofcFacePass_flux_eq]
        simp only [fofcFlagPass_P, fofcFlagPass_flux]
      · rw [if_neg h3, fofcFacePass_flux_ne (show (1:ℕ) ≠ 2 from by decide),
            fofcFacePass_flux_eq]
        simp only [fofcFlagPass_P, fofcFlagPass_flux]
    · rw [if_neg h2, if_neg (show ¬ 3 ≤ g.ndim from by omega), fofcFacePass_flux_eq]
      simp only [fofcFlagPass_P, fofcFlagPass_flux]
  · simp only [fofc]
    rw [if_pos (show 1 ≤ g.ndim from by omega), if_pos hle]
    by_cases h3 : 3 ≤ g.ndim
    · rw [if_pos h3, fofcFacePass_flux_ne (show (2:ℕ) ≠ 3 from by decide),
          fofcFacePass_flux_eq, fofcFacePass_flux_ne (show (2:ℕ) ≠ 1 from by decide)]
      simp only [fofcFacePass_fofcflag, fofcFacePass_P, fofcFlagPass_P, fofcFlagPass_flux]
    · rw [if_neg h3, fofcFacePass_flux_eq,
          fofcFacePass_flux_ne (show (2:ℕ) ≠ 1 from by decide)]
      simp only [fofcFacePass_fofcflag, fofcFacePass_P, fofcFlagPass_P, fofcFlagPass_flux]
  · simp only [fofc]
    rw [if_pos (show 1 ≤ g.ndim from by omega), if_pos (show 2 ≤ g.ndim from by omega),
        if_pos hle, fofcFacePass_flux_eq,
        fofcFacePass_flux_ne (show (3:ℕ) ≠ 2 from by decide),
        fofcFacePass_flux_ne (show (3:ℕ) ≠ 1 from by decide)]
    simp only [fofcFacePass_fofcflag, fofcFacePass_P, fofcFlagPass_P, fofcFlagPass_flux]

/-- FOFC leaves the fluxes of a direction it does not process untouched. -/
theorem fofc_flux_norun {nvar : ℕ} (g : FGrid) (ph : Phys nvar) (s : FState nvar)
    (d b : ℕ) (q : Fin nvar) (k j i : ℤ)
    (h : (d = 1 ∨ d = 2 ∨ d = 3) → g.ndim < d) :
    (fofc g ph s).flux d b q k j i = s.flux d b q k j i := by
  by_cases hd1 : d = 1
  · subst hd1
    have hlt := h (Or.inl rfl)
    simp only [fofc]
    rw [if_neg (show ¬ 1 ≤ g.ndim from by omega),
        if_neg (show ¬ 2 ≤ g.ndim from by omega),
        if_neg (show ¬ 3 ≤ g.ndim from by omega), fofcFlagPass_flux]
  · by_cases hd2 : d = 2
    · subst hd2
      have hlt := h (Or.inr (Or.inl rfl))
      simp only [fofc]
      rw [if_neg (show ¬ 2 ≤ g.ndim from by omega),
          if_neg (show ¬ 3 ≤ g.ndim from by omega)]
      by_cases hn1 : 1 ≤ g.ndim
      · rw [if_pos hn1, fofcFacePass_flux_ne (show (2:ℕ) ≠ 1 from by decide),
            fofcFlagPass_flux]
      · rw [if_neg hn1, fofcFlagPass_flux]
    · by_cases hd3 : d = 3
      · subst hd3
        have hlt := h (Or.inr (Or.inr rfl))
        simp only [fofc]
        rw [if_neg (show ¬ 3 ≤ g.ndim from by omega)]
        by_cases hn2 : 2 ≤ g.ndim
        · rw [if_pos (show 1 ≤ g.ndim from by omega), if_pos hn2,
              fofcFacePass_flux_ne (show (3:ℕ) ≠ 2 from by decide),
              fofcFacePass_flux_ne (show (3:ℕ) ≠ 1 from by decide), fofcFlagPass_flux]
        · by_cases hn1 : 1 ≤ g.ndim
          · rw [if_pos hn1, if_neg hn2,
                fofcFacePass_flux_ne (show (3:ℕ) ≠ 1 from by decide), fofcFlagPass_flux]
          · rw [if_neg hn1, if_neg hn2, fofcFlagPass_flux]
      · simp only [fofc]
        by_cases hn3 : 3 ≤ g.ndim
        · rw [if_pos hn3, if_pos (show 2 ≤ g.ndim from by omega),
              if_pos (show 1 ≤ g.ndim from by omega),
              fofcFacePass_flux_ne hd3, fofcFacePass_flux_ne hd2,
              fofcFacePass_flux_ne hd1, fofcFlagPass_flux]
        · rw [if_neg hn3]
          by_cases hn2 : 2 ≤ g.ndim
          · rw [if_pos hn2, if_pos (show 1 ≤ g.ndim from by omega),
                fofcFacePass_flux_ne hd2, fofcFacePass_flux_ne hd1, fofcFlagPass_flux]
          · rw [if_neg hn2]
            by_cases hn1 : 1 ≤ g.ndim
            · rw [if_pos hn1, fofcFacePass_flux_ne hd1, fofcFlagPass_flux]
            · rw [if_neg hn1, fofcFlagPass_flux]

/-- The flag pass gives equal fofcflag values on two states that agree on
    fflag and fofcflag and may disagree in pflag only at one cell, away
    from that cell. -/
theorem fofcFlagPass_congr {nvar : ℕ} (g : FGrid) (s t : FState nvar)
    (b0 : ℕ) (k0 j0 i0 : ℤ)
    (hff : t.fflag = s.fflag) (hfo : t.fofcflag = s.fofcflag)
    (hpe : ∀ b k j i, ¬(b = b0 ∧ k = k0 ∧ j = j0 ∧ i = i0) →
      t.pflag b k j i = s.pflag b k j i)
    (b : ℕ) (k j i : ℤ) (hne : ¬(b = b0 ∧ k = k0 ∧ j = j0 ∧ i = i0)) :
    (fofcFlagPass g t).fofcflag b k j i = (fofcFlagPass g s).fofcflag b k j i := by
  rw [fofcFlagPass_fofcflag_eq, fofcFlagPass_fofcflag_eq, hff, hfo, hpe b k j i hne]

end Kharma

namespace Kharma

/-- C3: at every face where FOFC corrects (either of the two cells
    bordering the face has fofcflag set), the flux of every variable is
    overwritten with F = 0.5*(Fl + Fr) - 0.5*max(cmax, cmin)*(Ur - Ul),
    where the left state is the un-reconstructed cell-center primitive
    vector of the trailing cell, the right state that of the face-index
    cell, Ul/Ur/Fl/Fr are recomputed from those states, and cmax/cmin are
    the characteristic speeds of those two states clamped to be
    non-negative, independent of the stored cmax/cmin of the main scheme. -/
theorem fofc_corrected_face_llf {nvar : ℕ} (g : FGrid) (ph : Phys nvar) (s : FState nvar)
    (d b : ℕ) (q : Fin nvar) (k j i : ℤ)
    (hd : d = 1 ∨ d = 2 ∨ d = 3) (hle : d ≤ g.ndim) (hb : b < g.nb)
    (hr : (g.faceRng d).memb k j i)
    (hflag : 0 < (fofcFlagPass g s).fofcflag b k j i ∨
             0 < (fofcFlagPass g s).fofcflag b (k - dK d) (j - dJ d) (i - dI d)) :
    (fofc g ph s).flux d b q k j i =
      (1/2) * (ph.primToFlux b k j i d d (fofcPl s.P d b k j i) q
               + ph.primToFlux b k j i d d (fofcPr s.P b k j i) q)
      - (1/2) * max (max 0 (max (ph.vchar b k j i d (fofcPl s.P d b k j i)).1
                                (ph.vchar b k j i d (fofcPr s.P b k j i)).1))
                    (max 0 (max (-(ph.vchar b k j i d (fofcPl s.P d b k j i)).2)
                                (-(ph.vchar b k j i d (fofcPr s.P b k j i)).2)))
        * (ph.primToFlux b k j i 0 d (fofcPr s.P b k j i) q
           - ph.primToFlux b k j i 0 d (fofcPl s.P d b k j i) q) := by
  have habs : ∀ a c : ℚ, |max (max 0 a) c| = max 0 (max a c) := by
    intro a c
    rw [abs_of_nonneg (le_trans (le_max_left 0 a) (le_max_left (max 0 a) c)), max_assoc]
  rw [fofc_flux_run g ph s d b q k j i hd hle, if_pos ⟨hb, hr, hflag⟩]
  simp only [fofcFaceFlux, llf, fofcCmax, fofcCmin]
  rw [habs, habs]

/-- C3 witness: the corrected flux at a concrete flagged face of the
    concrete 1D configuration evaluates to the LLF value 4. -/
theorem fofc_corrected_face_llf_witness :
    (fofc fgW phW sC3).flux 1 0 0 0 0 1 = 4 := by
  rw [fofc_corrected_face_llf fgW phW sC3 1 0 0 0 0 1 (Or.inl rfl) (by decide)
        (by decide) (by decide) (Or.inl (by decide))]
  simp only [phW, sC3, sW, fofcPl, fofcPr]
  norm_num

/-- C4 counterexample: with fflag and pflag zero at every cell but a stale
    fofcflag left over from an earlier substep, FOFC still overwrites a
    flux, so the claim as stated fails. -/
theorem fofc_stale_flag_cex :
    (∀ b k j i, sC4.fflag b k j i = 0) ∧ (∀ b k j i, sC4.pflag b k j i = 0) ∧
    (fofc fgW phW sC4).flux 1 0 0 0 0 1 ≠ sC4.flux 1 0 0 0 0 1 := by
  refine ⟨fun _ _ _ _ => rfl, fun _ _ _ _ => rfl, ?_⟩
  rw [fofc_flux_run fgW phW sC4 1 0 0 0 0 1 (Or.inl rfl) (by decide),
      if_pos ⟨by decide, by decide, Or.inl (by decide)⟩]
  simp only [fofcFaceFlux, llf, fofcCmax, fofcCmin, fofcPl, fofcPr, phW, sC4, sW]
  norm_num

/-- C4 amended: if fflag, pflag AND fofcflag are zero at every cell (FOFC
    only raises fofcflag, it never clears a stale one), then invoking FOFC
    leaves every flux value of every variable unchanged. -/
theorem fofc_noflags_identity {nvar : ℕ} (g : FGrid) (ph : Phys nvar) (s : FState nvar)
    (hf : ∀ b k j i, s.fflag b k j i = 0) (hp : ∀ b k j i, s.pflag b k j i = 0)
    (ho : ∀ b k j i, s.fofcflag b k j i = 0) :
    ∀ d b q k j i, (fofc g ph s).flux d b q k j i = s.flux d b q k j i := by
  have hflag : ∀ b k j i, (fofcFlagPass g s).fofcflag b k j i = 0 := by
    intro b k j i
    have hc : ¬(b < g.nb ∧ g.flagRng.memb k j i ∧
        (0 < s.fflag b k j i ∨ 0 < s.pflag b k j i)) := by
      rintro ⟨-, -, hor | hor⟩
      · rw [hf] at hor; exact lt_irrefl 0 hor
      · rw [hp] at hor; exact lt_irrefl 0 hor
    rw [fofcFlagPass_fofcflag_eq, if_neg hc]
    exact ho b k j i
  intro d b q k j i
  by_cases hrun : (d = 1 ∨ d = 2 ∨ d = 3) ∧ d ≤ g.ndim
  · have hcond : ¬(b < g.nb ∧ (g.faceRng d).memb k j i ∧
        (0 < (fofcFlagPass g s).fofcflag b k j i ∨
         0 < (fofcFlagPass g s).fofcflag b (k - dK d) (j - dJ d) (i - dI d))) := by
      rintro ⟨-, -, hor | hor⟩ <;> rw [hflag] at hor <;> exact lt_irrefl 0 hor
    rw [fofc_flux_run g ph s d b q k j i hrun.1 hrun.2, if_neg hcond]
  · refine fofc_flux_norun g ph s d b q k j i ?_
    intro hdm
    rcases not_and_or.mp hrun with hna | hna
    · exact absurd hdm hna
    · omega

/-- C4 witness: with every flag zero the flux at a concrete face is
    untouched. -/
theorem fofc_noflags_identity_witness :
    (fofc fgW phW sW).flux 1 0 0 0 0 1 = sW.flux 1 0 0 0 0 1 :=
  fofc_noflags_identity fgW phW sW (fun _ _ _ _ => rfl) (fun _ _ _ _ => rfl)
    (fun _ _ _ _ => rfl) 1 0 0 0 0 1

/-- C5: changing a single cell pflag from 0 to a positive value, with all
    other fflag/pflag/fofcflag values unchanged, changes the fluxes
    written by FOFC only at the faces directly bordering that cell (the
    face sharing the cell index and the next face along each processed
    direction); every other face keeps an identical flux. -/
theorem fofc_locality {nvar : ℕ} (g : FGrid) (ph : Phys nvar) (s t : FState nvar)
    (b0 : ℕ) (k0 j0 i0 : ℤ)
    (hff : t.fflag = s.fflag) (hfo : t.fofcflag = s.fofcflag) (hP : t.P = s.P)
    (hfl : t.flux = s.flux)
    (hp0 : s.pflag b0 k0 j0 i0 = 0) (hp1 : 0 < t.pflag b0 k0 j0 i0)
    (hpe : ∀ b k j i, ¬(b = b0 ∧ k = k0 ∧ j = j0 ∧ i = i0) →
      t.pflag b k j i = s.pflag b k j i)
    (d b : ℕ) (q : Fin nvar) (k j i : ℤ)
    (hface : ¬(b = b0 ∧ ((k = k0 ∧ j = j0 ∧ i = i0) ∨
               (k = k0 + dK d ∧ j = j0 + dJ d ∧ i = i0 + dI d)))) :
    (fofc g ph t).flux d b q k j i = (fofc g ph s).flux d b q k j i := by
  by_cases hrun : (d = 1 ∨ d = 2 ∨ d = 3) ∧ d ≤ g.ndim
  · have h1 : ¬(b = b0 ∧ k = k0 ∧ j = j0 ∧ i = i0) := by
      rintro ⟨hb, hrest⟩
      exact hface ⟨hb, Or.inl hrest⟩
    have h2 : ¬(b = b0 ∧ (k - dK d) = k0 ∧ (j - dJ d) = j0 ∧ (i - dI d) = i0) := by
      rintro ⟨hb, hk, hj, hi⟩
      exact hface ⟨hb, Or.inr ⟨by omega, by omega, by omega⟩⟩
    rw [fofc_flux_run g ph t d b q k j i hrun.1 hrun.2,
        fofc_flux_run g ph s d b q k j i hrun.1 hrun.2,
        fofcFlagPass_congr g s t b0 k0 j0 i0 hff hfo hpe b k j i h1,
        fofcFlagPass_congr g s t b0 k0 j0 i0 hff hfo hpe b (k - dK d) (j - dJ d)
          (i - dI d) h2,
        hP, hfl]
  · have hno : (d = 1 ∨ d = 2 ∨ d = 3) → g.ndim < d := by
      intro hdm
      rcases not_and_or.mp hrun with hna | hna
      · exact absurd hdm hna
      · omega
    rw [fofc_flux_norun g ph t d b q k j i hno, fofc_flux_norun g ph s d b q k j i hno,
        hfl]

/-- C5 witness: raising pflag at cell (0,0,0,1) leaves the flux at the
    distant face (0,0,3) identical. -/
theorem fofc_locality_witness :
    (fofc fgW phW tW).flux 1 0 0 0 0 3 = (fofc fgW phW sW).flux 1 0 0 0 0 3 := by
  refine fofc_locality fgW phW sW tW 0 0 0 1 rfl rfl rfl rfl rfl (by norm_num [tW, sW])
    ?_ 1 0 0 0 0 3 (by decide)
  intro b k j i h
  show (if b = 0 ∧ k = 0 ∧ j = 0 ∧ i = 1 then (1:ℤ) else 0) = 0
  rw [if_neg h]

end Kharma

namespace Kharma

/-- C9 code-bug record: the VarMap constructor derives B2 = B1 + 1 and
    B3 = B1 + 2 (and U2/U3 likewise) unconditionally, so in a pack lacking
    the magnetic-field vector, where the index map reports B1 = -1, the
    constructed map carries B2 = 0 and B3 = 1 instead of the documented -1
    sentinel; direct lookups such as PSI and KTOT do keep -1. -/
theorem varMap_absent_vector_slots_bug :
    (mkVarMap nmEmpty true).B1 = -1 ∧ (mkVarMap nmEmpty true).B2 = 0 ∧
    (mkVarMap nmEmpty true).B3 = 1 ∧ (mkVarMap nmEmpty true).U2 = 0 ∧
    (mkVarMap nmEmpty true).U3 = 1 ∧ (mkVarMap nmEmpty true).PSI = -1 ∧
    (mkVarMap nmEmpty true).KTOT = -1 ∧ (mkVarMap nmEmpty false).B2 = 0 := by
  refine ⟨?_, ?_, ?_, ?_, ?_, ?_, ?_, ?_⟩ <;> decide

/-- C10: UtoP (per-block and whole-mesh variant) sets prims.B to cons.B
    divided by the cell-centered gdet at every component and cell of the
    requested bounds, leaves cons.B unchanged, and consequently
    prims.B * gdet recovers cons.B exactly wherever gdet is nonzero. -/
theorem utoP_divide_and_recover (gdet : ℤ → ℤ → ℚ) (gdetM : ℕ → ℤ → ℤ → ℚ)
    (r : Rng3) (s : BFieldState) (sm : MFieldState) (nb nvec b p : ℕ) (k j i : ℤ)
    (hp : p ≤ 2) (hm : r.memb k j i) (hb : b < nb) (hpv : p < nvec) :
    ((utoP gdet r s).primsB p k j i = s.consB p k j i / gdet j i ∧
     (utoP gdet r s).consB = s.consB ∧
     (gdet j i ≠ 0 → (utoP gdet r s).primsB p k j i * gdet j i = s.consB p k j i)) ∧
    ((utoPMesh nb nvec gdetM r sm).primsB b p k j i = sm.consB b p k j i / gdetM b j i ∧
     (utoPMesh nb nvec gdetM r sm).consB = sm.consB ∧
     (gdetM b j i ≠ 0 →
       (utoPMesh nb nvec gdetM r sm).primsB b p k j i * gdetM b j i = sm.consB b p k j i)) := by
  have h1 : (utoP gdet r s).primsB p k j i = s.consB p k j i / gdet j i := by
    simp only [utoP]
    rw [if_pos ⟨hp, hm⟩]
  have h2 : (utoPMesh nb nvec gdetM r sm).primsB b p k j i =
      sm.consB b p k j i / gdetM b j i := by
    simp only [utoPMesh]
    rw [if_pos ⟨hb, hpv, hm⟩]
  exact ⟨⟨h1, rfl, fun hnz => by rw [h1]; exact div_mul_cancel₀ _ hnz⟩,
         ⟨h2, rfl, fun hnz => by rw [h2]; exact div_mul_cancel₀ _ hnz⟩⟩

/-- C10 witness: with gdet 2 and cons.B 3 the primitive field becomes 3/2
    and multiplying back by gdet recovers 3. -/
theorem utoP_divide_and_recover_witness :
    (utoP gdetW rngU bfW).primsB 0 0 0 0 = 3/2 ∧
    (utoP gdetW rngU bfW).primsB 0 0 0 0 * gdetW 0 0 = bfW.consB 0 0 0 0 := by
  have h := utoP_divide_and_recover gdetW gdetMW rngU bfW mfW 1 1 0 0 0 0 0
    (by decide) (by decide) (by decide) (by decide)
  constructor
  · rw [h.1.1]
    norm_num [bfW, gdetW]
  · exact h.1.2.2 (by norm_num [gdetW])

/-! Fold and membership lemmas for the divergence reduction. -/

/-- The initial accumulator never exceeds the max-reduction fold. -/
theorem divbStep_init_le (g : DivGrid) (B : ℕ → ℕ → ℤ → ℤ → ℤ → ℚ)
    (l : List (ℕ × ℤ × ℤ × ℤ)) (a : ℚ) : a ≤ l.foldl (divbStep g B) a := by
  induction l generalizing a with
  | nil => exact le_refl a
  | cons h t ih => exact le_trans (le_max_left a _) (ih (divbStep g B a h))

/-- The max-reduction fold bounds the estimate at every listed index. -/
theorem divbStep_le (g : DivGrid) (B : ℕ → ℕ → ℤ → ℤ → ℤ → ℚ)
    (l : List (ℕ × ℤ × ℤ × ℤ)) (a : ℚ) :
    ∀ x ∈ l, divbPoint g B x.1 x.2.1 x.2.2.1 x.2.2.2 ≤ l.foldl (divbStep g B) a := by
  induction l generalizing a with
  | nil => intro x hx; cases hx
  | cons h t ih =>
    intro x hx
    rcases List.mem_cons.mp hx with rfl | hx2
    · exact le_trans (le_max_right a _) (divbStep_init_le g B t (divbStep g B a x))
    · exact ih (divbStep g B a h) x hx2

/-- The max-reduction fold is the initial accumulator or the estimate at
    one of the listed indices. -/
theorem divbStep_cases (g : DivGrid) (B : ℕ → ℕ → ℤ → ℤ → ℤ → ℚ)
    (l : List (ℕ × ℤ × ℤ × ℤ)) (a : ℚ) :
    l.foldl (divbStep g B) a = a ∨
    ∃ x ∈ l, l.foldl (divbStep g B) a = divbPoint g B x.1 x.2.1 x.2.2.1 x.2.2.2 := by
  induction l generalizing a with
  | nil => exact Or.inl rfl
  | cons h t ih =>
    rcases ih (divbStep g B a h) with heq | ⟨x, hx, hv⟩
    · rcases max_choice a (divbPoint g B h.1 h.2.1 h.2.2.1 h.2.2.2) with hc | hc
      · left
        rw [List.foldl_cons, heq]
        exact hc
      · right
        refine ⟨h, List.mem_cons_self h t, ?_⟩
        rw [List.foldl_cons, heq]
        exact hc
    · right
      refine ⟨x, List.mem_cons_of_mem h hx, ?_⟩
      rw [List.foldl_cons]
      exact hv

/-- Membership in an integer interval list. -/
theorem mem_intRange {a b x : ℤ} : x ∈ intRange a b ↔ a ≤ x ∧ x ≤ b := by
  simp only [intRange, List.mem_map, List.mem_range]
  constructor
  · rintro ⟨n, hn, rfl⟩
    omega
  · rintro ⟨h1, h2⟩
    exact ⟨(x - a).toNat, by omega, by omega⟩

/-- Membership in the index list of the max-divergence reduction. -/
theorem mem_divbIndices (g : DivGrid) (b : ℕ) (k j i : ℤ) :
    (b, k, j, i) ∈ divbIndices g ↔
      b < g.nb ∧ divKlo g ≤ k ∧ k ≤ g.dke ∧ g.djs + 1 ≤ j ∧ j ≤ g.dje ∧
      g.dis + 1 ≤ i ∧ i ≤ g.die := by
  simp only [divbIndices, List.mem_flatMap, List.mem_map, List.mem_range, mem_intRange,
    Prod.mk.injEq]
  constructor
  · rintro ⟨b2, hb2, k2, hk2, j2, hj2, i2, hi2, rfl, rfl, rfl, rfl⟩
    exact ⟨hb2, hk2.1, hk2.2, hj2.1, hj2.2, hi2.1, hi2.2⟩
  · rintro ⟨hb, hk1, hk2, hj1, hj2, hi1, hi2⟩
    exact ⟨b, hb, k, ⟨hk1, hk2⟩, j, ⟨hj1, hj2⟩, i, ⟨hi1, hi2⟩, rfl, rfl, rfl, rfl⟩

/-- The divergence estimate is an absolute value, hence non-negative. -/
theorem divbPoint_nonneg (g : DivGrid) (B : ℕ → ℕ → ℤ → ℤ → ℤ → ℚ)
    (b : ℕ) (k j i : ℤ) : 0 ≤ divbPoint g B b k j i := by
  simp only [divbPoint]
  exact abs_nonneg _

end Kharma

namespace Kharma

/-- C8 amended: for a non-trivial 2D or 3D mesh, MaxDivB returns the
    maximum of the corner-averaged finite-difference divergence estimate
    |norm*term1/dx1 + norm*term2/dx2 + norm*term3/dx3| over all blocks and
    over the interior cells excluding the first interior layer on the
    inner (left) side of each in-use axis: i in [is+1, ie], j in [js+1, je]
    and, in 3D, k in [ks+1, ke]. -/
theorem maxDivB_max_over_shifted (g : DivGrid) (B : ℕ → ℕ → ℤ → ℤ → ℤ → ℚ)
    (hnd : 2 ≤ g.ndim) (hnb : 0 < g.nb) (hk : divKlo g ≤ g.dke)
    (hj : g.djs + 1 ≤ g.dje) (hi : g.dis + 1 ≤ g.die) :
    (∀ b k j i, b < g.nb → divKlo g ≤ k → k ≤ g.dke → g.djs + 1 ≤ j → j ≤ g.dje →
      g.dis + 1 ≤ i → i ≤ g.die → divbPoint g B b k j i ≤ maxDivB g B) ∧
    (∃ b k j i, (b < g.nb ∧ divKlo g ≤ k ∧ k ≤ g.dke ∧ g.djs + 1 ≤ j ∧ j ≤ g.dje ∧
      g.dis + 1 ≤ i ∧ i ≤ g.die) ∧ maxDivB g B = divbPoint g B b k j i) := by
  have hmd : maxDivB g B = (divbIndices g).foldl (divbStep g B) 0 := by
    rw [maxDivB, if_neg (by omega)]
  constructor
  · intro b k j i hb h1 h2 h3 h4 h5 h6
    rw [hmd]
    exact divbStep_le g B (divbIndices g) 0 (b, k, j, i)
      ((mem_divbIndices g b k j i).mpr ⟨hb, h1, h2, h3, h4, h5, h6⟩)
  · rcases divbStep_cases g B (divbIndices g) 0 with heq | ⟨x, hx, hv⟩
    · have h0 : maxDivB g B = 0 := hmd.trans heq
      have hle : divbPoint g B 0 (divKlo g) (g.djs + 1) (g.dis + 1) ≤ maxDivB g B := by
        rw [hmd]
        exact divbStep_le g B (divbIndices g) 0 (0, divKlo g, g.djs + 1, g.dis + 1)
          ((mem_divbIndices g 0 (divKlo g) (g.djs + 1) (g.dis + 1)).mpr
            ⟨hnb, le_refl _, hk, le_refl _, hj, le_refl _, hi⟩)
      refine ⟨0, divKlo g, g.djs + 1, g.dis + 1,
        ⟨hnb, le_refl _, hk, le_refl _, hj, le_refl _, hi⟩, ?_⟩
      rw [h0]
      exact (le_antisymm (h0 ▸ hle)
        (divbPoint_nonneg g B 0 (divKlo g) (g.djs + 1) (g.dis + 1))).symm
    · obtain ⟨b, k, j, i⟩ := x
      rcases (mem_divbIndices g b k j i).mp hx with ⟨hb, h1, h2, h3, h4, h5, h6⟩
      exact ⟨b, k, j, i, ⟨hb, h1, h2, h3, h4, h5, h6⟩, hmd.trans hv⟩

/-- C8 witness: the divergence estimate at the single reduced cell of the
    concrete grid is bounded by the returned maximum. -/
theorem maxDivB_max_over_shifted_witness :
    divbPoint gD BD 0 0 2 2 ≤ maxDivB gD BD :=
  (maxDivB_max_over_shifted gD BD (by decide) (by decide) (by decide) (by decide)
    (by decide)).1 0 0 2 2 (by decide) (by decide) (by decide) (by decide) (by decide)
    (by decide) (by decide)

/-- C8 counterexample: on a concrete grid the value MaxDivB returns
    differs from the maximum over ALL interior cells, because the
    reduction never visits the first interior layer. -/
theorem maxDivB_not_all_interior_cex : maxDivB gD BD ≠ maxDivBAllInterior gD BD := by
  have hv0 : divbPoint gD BD 0 0 2 2 = 0 := by
    norm_num [divbPoint, gD, BD]
  have h1 : maxDivB gD BD = 0 := by
    have hlist : divbIndices gD = [(0, 0, 2, 2)] := by decide
    rw [maxDivB, if_neg (by decide), hlist]
    show max 0 (divbPoint gD BD 0 0 2 2) = 0
    rw [hv0]
    exact max_self 0
  have hv2 : divbPoint gD BD 0 0 1 1 = 1/2 := by
    norm_num [divbPoint, gD, BD]
  have h2 : (1:ℚ)/2 ≤ maxDivBAllInterior gD BD := by
    have hmem : ((0:ℕ), (0:ℤ), (1:ℤ), (1:ℤ)) ∈ divbIndicesAll gD := by decide
    rw [maxDivBAllInterior, if_neg (by decide), ← hv2]
    exact divbStep_le gD BD (divbIndicesAll gD) 0 (0, 0, 1, 1) hmem
  rw [h1]
  intro hcontra
  rw [← hcontra] at h2
  norm_num at h2

end Kharma
